import Mathlib

/-!
Shallow embedding of the highlight-detection pipeline and the typing display
queue of `clipper-v2.01.py` (class `TranscriptionWorker` and the typing-related
methods of `VideoTranscriberEditor`).

Modelling conventions:
* Python floats (segment timestamps, classifier scores) are modelled as exact
  rationals `ℚ`; Python ints as `ℕ`/`ℤ`.
* `int(x)` on a nonnegative quotient is integer floor, i.e. `Nat` division.
* The classifier pipeline call `classifier(batch_texts)` returns, per input
  text, a ranked prediction list of which only rank 0 (`preds[0]`) is read;
  it is therefore modelled as a function from the batch to the list of
  top-ranked predictions, one per text.
* Python exceptions are modelled with `Except`: `runE` is the embedding of
  `TranscriptionWorker.run` for a fallible classifier, where an exception
  raised inside the classifier call propagates out of `run` (the source has
  no try/except around it).  `run` is the same loop for a total classifier.
-/

namespace Clipper

/-- Top-ranked classification result for one text: `preds[0]['label']` and
`preds[0]['score']` in the source. -/
structure Pred where
  label : String
  score : ℚ
deriving DecidableEq

/-- One transcribed segment, as consumed by `TranscriptionWorker.run`:
`segment['text']`, `segment['start']`, `segment['end']` (the `end` field is
named `endTime` here because `end` is a Lean keyword). -/
structure Segment where
  text : String
  start : ℚ
  endTime : ℚ
deriving DecidableEq

/-- An emitted highlight `(clip_start, clip_end, title)`. -/
structure Highlight where
  clipStart : ℚ
  clipEnd : ℚ
  title : String
deriving DecidableEq

/-- Python `str.strip()` with no argument: remove leading and trailing
whitespace.  Implemented structurally over the character list so that it
evaluates inside the kernel. -/
def pyStrip (s : String) : String :=
  String.mk (((s.data.dropWhile Char.isWhitespace).reverse.dropWhile
    Char.isWhitespace).reverse)

/-- Worker for `pySplit`: scan the character list, accumulating the current
word in reverse in `acc`; a whitespace character closes the current word (if
any), and no empty words are produced. -/
def pyWordsAux : List Char → List Char → List (List Char)
  | [], acc => if acc = [] then [] else [acc.reverse]
  | c :: cs, acc =>
    if c.isWhitespace then
      if acc = [] then pyWordsAux cs [] else acc.reverse :: pyWordsAux cs []
    else pyWordsAux cs (c :: acc)

/-- Python `str.split()` with no argument: split on maximal runs of
whitespace, discarding empty pieces. -/
def pySplit (s : String) : List String :=
  (pyWordsAux s.data []).map String.mk

/-- `TranscriptionWorker.generate_title`: first six whitespace-separated words,
with `"..."` appended when the text has at least six words (`len(words) >= 6`
in the source), else all words joined by single spaces. -/
def generate_title (text : String) : String :=
  let words := pySplit text
  if words.length ≥ 6 then
    String.intercalate " " (words.take 6) ++ "..."
  else
    String.intercalate " " words

/-- The candidate clip end computed by the 20s/120s clamp in
`TranscriptionWorker.run`: `clip_end` right before the buffering line. -/
def candEnd (start endTime : ℚ) : ℚ :=
  if endTime - start < 20 then start + 20
  else if endTime - start > 120 then start + 120
  else endTime

/-- The buffered clip bounds of `TranscriptionWorker.run`:
`clip_start = max(0, start_time - 2)` and
`clip_end = min(clip_start + (clip_end - start_time) + 2, clip_end + 2)`
where the inner `clip_end` is the clamped candidate end. -/
def clipBounds (start endTime : ℚ) : ℚ × ℚ :=
  let cand := candEnd start endTime
  let clip_start := max 0 (start - 2)
  let clip_end := min (clip_start + (cand - start) + 2) (cand + 2)
  (clip_start, clip_end)

/-- The acceptance test of `TranscriptionWorker.run`:
`top_label in ["joy", "surprise"] and top_score > 0.98`. -/
def accepts (p : Pred) : Bool :=
  (p.label == "joy" || p.label == "surprise") && decide ((98 : ℚ)/100 < p.score)

/-- One step of the per-batch inner loop of `TranscriptionWorker.run`: given
the accumulator `(detected_highlights, last_highlight_end)` and one
`(top prediction, text, start, end)` tuple of the batch, either append a
highlight (when the label/score test and the overlap gate both pass) or leave
the state unchanged. -/
def stepSeg (st : List Highlight × ℚ) (x : Pred × String × ℚ × ℚ) :
    List Highlight × ℚ :=
  let p := x.1
  let text := x.2.1
  let s := x.2.2.1
  let e := x.2.2.2
  if accepts p then
    let cs := (clipBounds s e).1
    let ce := (clipBounds s e).2
    if st.2 ≤ cs then
      (st.1 ++ [{ clipStart := cs, clipEnd := ce, title := generate_title text }], ce)
    else st
  else st

/-- Process one flushed batch: call the classifier on the batch texts and run
the inner loop over the (prediction, text, start, end) tuples in batch order. -/
def processBatch (classify : List String → List Pred)
    (texts : List String) (starts stops : List ℚ)
    (st : List Highlight × ℚ) : List Highlight × ℚ :=
  ((classify texts).zip (texts.zip (starts.zip stops))).foldl stepSeg st

/-- The mutable state of one `TranscriptionWorker.run` invocation.
`progressLog` records every value passed to `self.progress.emit`, and
`batchLog` records the text list of every classifier call, so that the
emission behaviour can be stated as data. -/
structure RunState where
  batch_texts : List String
  batch_starts : List ℚ
  batch_ends : List ℚ
  last_highlight_end : ℚ
  detected_highlights : List Highlight
  progressLog : List ℕ
  batchLog : List (List String)
deriving DecidableEq

/-- The state at the top of `TranscriptionWorker.run`: empty batch buffers,
`last_highlight_end = 0`, no highlights, nothing emitted yet. -/
def initState : RunState :=
  { batch_texts := [], batch_starts := [], batch_ends := []
    last_highlight_end := 0, detected_highlights := []
    progressLog := [], batchLog := [] }

/-- The body of the `for i, segment in enumerate(segments)` loop for one
segment at index `i` out of `n` total: append the stripped text and the
timestamps to the batch buffers; flush (classify and assemble, then clear the
buffers) when the batch holds ≥ 10 texts or `i` is the last index; finally
emit `int((i+1)/total_segments*100)` as progress. -/
def runStep (classify : List String → List Pred) (n : ℕ)
    (st : RunState) (i : ℕ) (seg : Segment) : RunState :=
  let texts := st.batch_texts ++ [pyStrip seg.text]
  let starts := st.batch_starts ++ [seg.start]
  let stops := st.batch_ends ++ [seg.endTime]
  let st' :=
    if 10 ≤ texts.length ∨ i = n - 1 then
      let res := processBatch classify texts starts stops
        (st.detected_highlights, st.last_highlight_end)
      { st with batch_texts := [], batch_starts := [], batch_ends := []
                detected_highlights := res.1, last_highlight_end := res.2
                batchLog := st.batchLog ++ [texts] }
    else
      { st with batch_texts := texts, batch_starts := starts, batch_ends := stops }
  { st' with progressLog := st'.progressLog ++ [(i + 1) * 100 / n] }

/-- The segment loop of `TranscriptionWorker.run`, threading the index `i`. -/
def runLoop (classify : List String → List Pred) (n : ℕ) :
    ℕ → RunState → List Segment → RunState
  | _, st, [] => st
  | i, st, seg :: rest => runLoop classify n (i + 1) (runStep classify n st i seg) rest

/-- `TranscriptionWorker.run` for a total (never-raising) classifier: iterate
the loop body over all segments with `total_segments = segments.length`.
The final `detected_highlights` field is what `self.finished.emit` delivers. -/
def run (classify : List String → List Pred) (segments : List Segment) : RunState :=
  runLoop classify segments.length 0 initState segments

/-- One flushed batch for a fallible classifier: an exception raised by the
classifier call propagates (there is no try/except in the source loop). -/
def processBatchE (classify : List String → Except Unit (List Pred))
    (texts : List String) (starts stops : List ℚ)
    (st : List Highlight × ℚ) : Except Unit (List Highlight × ℚ) :=
  match classify texts with
  | Except.error e => Except.error e
  | Except.ok preds => Except.ok ((preds.zip (texts.zip (starts.zip stops))).foldl stepSeg st)

/-- Loop body of `TranscriptionWorker.run` for a fallible classifier. -/
def runStepE (classify : List String → Except Unit (List Pred)) (n : ℕ)
    (st : RunState) (i : ℕ) (seg : Segment) : Except Unit RunState :=
  let texts := st.batch_texts ++ [pyStrip seg.text]
  let starts := st.batch_starts ++ [seg.start]
  let stops := st.batch_ends ++ [seg.endTime]
  if 10 ≤ texts.length ∨ i = n - 1 then
    match processBatchE classify texts starts stops
      (st.detected_highlights, st.last_highlight_end) with
    | Except.error e => Except.error e
    | Except.ok res =>
      Except.ok { st with batch_texts := [], batch_starts := [], batch_ends := []
                          detected_highlights := res.1, last_highlight_end := res.2
                          batchLog := st.batchLog ++ [texts]
                          progressLog := st.progressLog ++ [(i + 1) * 100 / n] }
  else
    Except.ok { st with batch_texts := texts, batch_starts := starts, batch_ends := stops
                        progressLog := st.progressLog ++ [(i + 1) * 100 / n] }

/-- Segment loop for a fallible classifier: a raised exception aborts the loop
(and hence the run) immediately. -/
def runLoopE (classify : List String → Except Unit (List Pred)) (n : ℕ) :
    ℕ → RunState → List Segment → Except Unit RunState
  | _, st, [] => Except.ok st
  | i, st, seg :: rest =>
    match runStepE classify n st i seg with
    | Except.error e => Except.error e
    | Except.ok st' => runLoopE classify n (i + 1) st' rest

/-- `TranscriptionWorker.run` for a fallible classifier. -/
def runE (classify : List String → Except Unit (List Pred))
    (segments : List Segment) : Except Unit RunState :=
  runLoopE classify segments.length 0 initState segments

/-!
The typing display queue of `VideoTranscriberEditor`: `animate_typing`
(producer side), `type_next_character` (timer slot, one tick each 20 ms while
the timer runs), and the backlog flush at the end of
`handle_transcription_finished`.  Strings are modelled as `List Char`; all
three handlers run on the single GUI thread, so an execution is an arbitrary
interleaving of the three events, with ticks occurring only while the timer
is active.
-/

/-- The typing-related fields of `VideoTranscriberEditor`. -/
structure TypingState where
  full_text : List Char
  pending_segments : List (List Char)
  current_typing_text : List Char
  current_char_index : ℕ
  timerActive : Bool
deriving DecidableEq

/-- State before any chunk arrives: empty text, empty backlog, timer stopped. -/
def initTyping : TypingState :=
  { full_text := [], pending_segments := [], current_typing_text := []
    current_char_index := 0, timerActive := false }

/-- `VideoTranscriberEditor.animate_typing`: while the timer is active the new
chunk joins the backlog, otherwise typing of the new chunk starts. -/
def animate_typing (st : TypingState) (new_text : List Char) : TypingState :=
  if st.timerActive then
    { st with pending_segments := st.pending_segments ++ [new_text] }
  else
    { st with current_typing_text := new_text, current_char_index := 0
              timerActive := true }

/-- `VideoTranscriberEditor.type_next_character` (the timer slot): emit the
next character of the current chunk, or — past its end — stop the timer and,
if the backlog is non-empty, pop its head and restart on it. -/
def type_next_character (st : TypingState) : TypingState :=
  match st.current_typing_text.get? st.current_char_index with
  | some c =>
    { st with full_text := st.full_text ++ [c]
              current_char_index := st.current_char_index + 1 }
  | none =>
    match st.pending_segments with
    | [] => { st with timerActive := false }
    | next :: rest =>
      { st with current_typing_text := next, current_char_index := 0
                pending_segments := rest, timerActive := true }

/-- The backlog flush at the end of
`VideoTranscriberEditor.handle_transcription_finished`: when the backlog is
non-empty, append all queued chunks to `full_text` at once and clear the
backlog.  It does not touch the timer or the chunk currently being typed. -/
def flush_pending (st : TypingState) : TypingState :=
  match st.pending_segments with
  | [] => st
  | segs => { st with full_text := st.full_text ++ segs.flatten, pending_segments := [] }

/-- One observable event on the GUI thread. -/
inductive TypingEv where
  | submit (s : List Char)
  | tick
  | flush
deriving DecidableEq

/-- Dispatch one event.  A tick while the timer is stopped cannot occur (the
timer emits no timeouts when stopped) and is modelled as a no-op. -/
def typingStep (st : TypingState) (ev : TypingEv) : TypingState :=
  match ev with
  | TypingEv.submit s => animate_typing st s
  | TypingEv.tick => if st.timerActive then type_next_character st else st
  | TypingEv.flush => flush_pending st

/-- Run a whole event sequence from a given state. -/
def runTyping (st : TypingState) (evs : List TypingEv) : TypingState :=
  evs.foldl typingStep st

/-- The chunks submitted over an event sequence, in submission order. -/
def submittedChunks (evs : List TypingEv) : List (List Char) :=
  evs.foldr (fun ev acc => match ev with
    | TypingEv.submit s => s :: acc
    | _ => acc) []

/-!  Spec-side definitions, transcribed from the spec's words, to be compared
against the definitions taken from the source. -/

/-- The clip-bound formula exactly as the spec words it (defaults
`minClipSeconds = 20`, `maxClipSeconds = 120`, `leadBuffer = trailBuffer = 2`):
clamp the candidate end, then `clipStart = max(0, start - leadBuffer)` and
`clipEnd = min(clipStart + (candidateEnd - start) + leadBuffer,
candidateEnd + trailBuffer)`. -/
def clipBoundsSpec (start endTime : ℚ) : ℚ × ℚ :=
  let d := endTime - start
  let candidateEnd :=
    if d < 20 then start + 20
    else if d > 120 then start + 120
    else endTime
  let clipStart := max 0 (start - 2)
  let clipEnd := min (clipStart + (candidateEnd - start) + 2) (candidateEnd + 2)
  (clipStart, clipEnd)

/-- The title rule exactly as the spec (and claim C7) words it: the first six
whitespace-separated words joined by single spaces, with a trailing ellipsis
appended only when the text has strictly more than six words; otherwise the
title is the source text unmodified. -/
def titleSpecOriginal (text : String) : String :=
  let words := pySplit text
  if words.length > 6 then String.intercalate " " (words.take 6) ++ "..."
  else text

/-- The title rule as amended to match the source: the ellipsis is already
appended at exactly six words (`len(words) >= 6`), and a text of fewer than
six words is rendered as its words joined by single spaces (so runs of
whitespace are collapsed), not as the raw text. -/
def titleSpecAmended (text : String) : String :=
  let words := pySplit text
  if 6 ≤ words.length then String.intercalate " " (words.take 6) ++ "..."
  else String.intercalate " " words

/-- The progress value as the spec words it: `round(done / total * 100)`. -/
def progressSpec (done total : ℕ) : ℤ :=
  round ((done : ℚ) / (total : ℚ) * 100)

/-- The event trace exhibiting the display-fidelity failure: chunk `"ab"`
arrives, one timer tick types `'a'`, chunk `"cd"` arrives mid-typing and is
queued, the stream-end flush fires, and the timer then drains. -/
def c2trace : List TypingEv :=
  [TypingEv.submit ['a', 'b'], TypingEv.tick, TypingEv.submit ['c', 'd'],
   TypingEv.flush, TypingEv.tick, TypingEv.tick]

/-- The invariant maintained by the inner assembly loop over the accumulator
`(detected_highlights, last_highlight_end)`: highlights are pairwise
non-overlapping in emission order, and every emitted clip end is bounded by
`max 0 last_highlight_end`. -/
def HInv (st : List Highlight × ℚ) : Prop :=
  st.1.Pairwise (fun h1 h2 => h1.clipEnd ≤ h2.clipStart) ∧
  ∀ h ∈ st.1, h.clipEnd ≤ max 0 st.2

/-- `HInv` read off a full run state. -/
def RInv (st : RunState) : Prop :=
  HInv (st.detected_highlights, st.last_highlight_end)

/-! ### Helper lemmas -/

/-- The clamped candidate duration is at least 20 seconds, for any input. -/
theorem candEnd_sub_lb (s e : ℚ) : 20 ≤ candEnd s e - s := by
  unfold candEnd
  split_ifs <;> linarith

/-- The clamped candidate duration is at most 120 seconds, for any input. -/
theorem candEnd_sub_ub (s e : ℚ) : candEnd s e - s ≤ 120 := by
  unfold candEnd
  split_ifs <;> linarith

/-- The emitted clip start is never negative. -/
theorem clipBounds_fst_nonneg (s e : ℚ) : 0 ≤ (clipBounds s e).1 :=
  le_max_left 0 (s - 2)

/-- The emitted clip start never exceeds `max 0` of the emitted clip end. -/
theorem clipBounds_start_le (s e : ℚ) :
    (clipBounds s e).1 ≤ max 0 (clipBounds s e).2 := by
  have h20 := candEnd_sub_lb s e
  have h1 : (clipBounds s e).1 = max 0 (s - 2) := rfl
  have h2 : (clipBounds s e).2 =
      min (max 0 (s - 2) + (candEnd s e - s) + 2) (candEnd s e + 2) := rfl
  rw [h1, h2]
  rcases le_or_lt 2 s with hs | hs
  · refine le_max_of_le_right (le_min ?_ ?_)
    · linarith
    · exact max_le (by linarith) (by linarith)
  · have h0 : max 0 (s - 2) = 0 := max_eq_left (by linarith)
    rw [h0]
    exact le_max_left _ _

/-- `List.map` respects pointwise equal functions. -/
theorem map_ext {α β : Type} (f g : α → β) (l : List α) (h : ∀ a, f a = g a) :
    l.map f = l.map g := by
  induction l with
  | nil => rfl
  | cons a l ih => simp [h a, ih]

/-- A `foldl` preserves any invariant its step preserves. -/
theorem foldl_preserves {α β : Type} {P : α → Prop} (f : α → β → α)
    (hf : ∀ a b, P a → P (f a b)) :
    ∀ (l : List β) (a : α), P a → P (l.foldl f a) := by
  intro l
  induction l with
  | nil => intro a h; exact h
  | cons b l ih => intro a h; exact ih _ (hf a b h)

/-! ### C3: the buffering formula matches the spec formula -/

/-- C3: for every segment with `end > start`, the clip bounds computed by
`TranscriptionWorker.run` (clamp of the candidate end to the 20s/120s window,
then `clipStart = max(0, start - 2)` and
`clipEnd = min(clipStart + (candidateEnd - start) + 2, candidateEnd + 2)`)
are exactly those of the spec's formula, `min` of the two expressions
included. -/
theorem clipBounds_matches_spec (s e : ℚ) (_h : s < e) :
    clipBounds s e = clipBoundsSpec s e := rfl

/-- Witness for `clipBounds_matches_spec` at `start = 0`, `end = 5`. -/
theorem clipBounds_matches_spec_witness :
    (0 : ℚ) < 5 ∧ clipBounds 0 5 = clipBoundsSpec 0 5 :=
  ⟨by norm_num, clipBounds_matches_spec 0 5 (by norm_num)⟩

/-! ### C6: strict 0.98 threshold over the accept-set {joy, surprise} -/

/-- C6: a classified segment passes the acceptance test iff its top label is
`"joy"` or `"surprise"` and its top score is strictly greater than `0.98`;
in particular a score of exactly `0.98` is rejected whatever the label. -/
theorem accepts_iff_strict_threshold (p : Pred) :
    (accepts p = true ↔
      (p.label = "joy" ∨ p.label = "surprise") ∧ (98 : ℚ) / 100 < p.score) ∧
    accepts { label := p.label, score := (98 : ℚ) / 100 } = false := by
  constructor
  · simp [accepts]
  · simp [accepts]

/-! ### C7: title generation -/

/-- C7 counterexample: on a text of exactly six words the source appends the
ellipsis (`len(words) >= 6`), while the claim (strictly more than six words)
says the title would be the text unmodified. -/
theorem generate_title_six_words_counterexample :
    generate_title "a b c d e f" = "a b c d e f..." ∧
    titleSpecOriginal "a b c d e f" = "a b c d e f" ∧
    ("a b c d e f..." : String) ≠ "a b c d e f" := by
  refine ⟨by decide, by decide, by decide⟩

/-- C7 amended: the generated title is the first six whitespace-separated
words joined by single spaces with the ellipsis appended iff the text has six
or more words; with fewer than six words the title is the words joined by
single spaces (whitespace collapsed), not necessarily the raw text. -/
theorem generate_title_matches_amended_spec (text : String) :
    generate_title text = titleSpecAmended text := rfl

/-! ### C10: duration of the emitted window -/

/-- C10: for every accepted segment with `0 ≤ start < end`, the emitted clip
satisfies `clipEnd - clipStart = (candidateEnd - start) + 2`, which always
lies in `[22, 122]`; and whenever `start ≥ 2` the `min` resolves to its first
argument, so `clipEnd` equals the clamped candidate end exactly. -/
theorem clip_duration_window (s e : ℚ) (hs : 0 ≤ s) (_hse : s < e) :
    (clipBounds s e).2 - (clipBounds s e).1 = (candEnd s e - s) + 2 ∧
    22 ≤ (clipBounds s e).2 - (clipBounds s e).1 ∧
    (clipBounds s e).2 - (clipBounds s e).1 ≤ 122 ∧
    (2 ≤ s → (clipBounds s e).2 = candEnd s e) := by
  have h20 := candEnd_sub_lb s e
  have h120 := candEnd_sub_ub s e
  have h1 : (clipBounds s e).1 = max 0 (s - 2) := rfl
  have h2 : (clipBounds s e).2 =
      min (max 0 (s - 2) + (candEnd s e - s) + 2) (candEnd s e + 2) := rfl
  rcases le_or_lt 2 s with hs2 | hs2
  · have hcs : max 0 (s - 2) = s - 2 := max_eq_right (by linarith)
    have hce : min (max 0 (s - 2) + (candEnd s e - s) + 2) (candEnd s e + 2)
        = candEnd s e := by
      rw [hcs]
      have harg : s - 2 + (candEnd s e - s) + 2 = candEnd s e := by ring
      rw [harg]
      exact min_eq_left (by linarith)
    rw [h1, h2, hce, hcs]
    refine ⟨by ring, by linarith, by linarith, fun _ => rfl⟩
  · have hcs : max 0 (s - 2) = 0 := max_eq_left (by linarith)
    have hce : min (max 0 (s - 2) + (candEnd s e - s) + 2) (candEnd s e + 2)
        = candEnd s e - s + 2 := by
      rw [hcs]
      have harg : (0 : ℚ) + (candEnd s e - s) + 2 = candEnd s e - s + 2 := by ring
      rw [harg]
      exact min_eq_left (by linarith)
    rw [h1, h2, hce, hcs]
    refine ⟨by ring, by linarith, by linarith, fun h2s => absurd h2s (by linarith)⟩

/-- Witness for `clip_duration_window` at `start = 3`, `end = 5` (a segment
shorter than 20 s, with `start ≥ 2` so the last conjunct is exercised). -/
theorem clip_duration_window_witness :
    (0 : ℚ) ≤ 3 ∧ (3 : ℚ) < 5 ∧
    ((clipBounds 3 5).2 - (clipBounds 3 5).1 = (candEnd 3 5 - 3) + 2 ∧
      22 ≤ (clipBounds 3 5).2 - (clipBounds 3 5).1 ∧
      (clipBounds 3 5).2 - (clipBounds 3 5).1 ≤ 122 ∧
      ((2 : ℚ) ≤ 3 → (clipBounds 3 5).2 = candEnd 3 5)) :=
  ⟨by norm_num, by norm_num, clip_duration_window 3 5 (by norm_num) (by norm_num)⟩

/-! ### C2: display fidelity of the typing queue -/

/-- C2 (evidence of the code bug): on the interleaving `c2trace` — the
stream-end flush fires while chunk `"ab"` is still mid-typing and `"cd"` is
queued — the final drained text is `"acdb"`: the tail of the in-progress
chunk lands after the flushed backlog, so the rendered text is not the
concatenation `"abcd"` of the submitted chunks.  The final state is fully
drained (timer stopped, backlog empty), so this is the final rendered text. -/
theorem typing_flush_reorders_text :
    (runTyping initTyping c2trace).full_text = ['a', 'c', 'd', 'b'] ∧
    (runTyping initTyping c2trace).timerActive = false ∧
    (runTyping initTyping c2trace).pending_segments = [] ∧
    submittedChunks c2trace = [['a', 'b'], ['c', 'd']] ∧
    (submittedChunks c2trace).flatten ≠ (runTyping initTyping c2trace).full_text := by
  decide

/-! ### C5: behaviour on a scorer error -/

/-- C5 counterexample: with a scorer that raises on its (single, non-empty)
batch, the run aborts with the propagated exception — there is no per-text
skip and no recovery, contradicting the claim that the run never aborts. -/
theorem scorer_error_counterexample :
    runE (fun _ => Except.error ()) [{ text := "hello", start := 0, endTime := 30 }]
      = Except.error () := rfl

/-- An always-raising scorer makes the segment loop abort as soon as any
batch is flushed; since the last segment always forces a flush, a non-empty
remainder always aborts. -/
theorem runLoopE_error_aborts (n : ℕ) :
    ∀ (rest : List Segment) (i : ℕ) (st : RunState),
      i + rest.length = n → rest ≠ [] →
      runLoopE (fun _ => Except.error ()) n i st rest = Except.error () := by
  intro rest
  induction rest with
  | nil => intro i st _ h; exact absurd rfl h
  | cons seg rest ih =>
    intro i st hn _
    cases rest with
    | nil =>
      have hi : i = n - 1 := by
        simp only [List.length_cons, List.length_nil] at hn
        omega
      subst hi
      simp [runLoopE, runStepE, processBatchE]
    | cons s2 r2 =>
      have hn' : (i + 1) + (s2 :: r2).length = n := by
        simp only [List.length_cons] at hn ⊢
        omega
      show (match runStepE (fun _ => Except.error ()) n st i seg with
        | Except.error e => Except.error e
        | Except.ok st' =>
          runLoopE (fun _ => Except.error ()) n (i + 1) st' (s2 :: r2))
        = Except.error ()
      by_cases hc : 10 ≤ (st.batch_texts ++ [pyStrip seg.text]).length ∨ i = n - 1
      · have hstep : runStepE (fun _ => Except.error ()) n st i seg = Except.error () := by
          unfold runStepE processBatchE
          dsimp only
          rw [if_pos hc]
        rw [hstep]
      · have hstep : runStepE (fun _ => Except.error ()) n st i seg = Except.ok
            { st with batch_texts := st.batch_texts ++ [pyStrip seg.text],
                      batch_starts := st.batch_starts ++ [seg.start],
                      batch_ends := st.batch_ends ++ [seg.endTime],
                      progressLog := st.progressLog ++ [(i + 1) * 100 / n] } := by
          unfold runStepE
          dsimp only
          rw [if_neg hc]
        rw [hstep]
        exact ih (i + 1) _ hn' (by simp)

/-- C5 amended: if the underlying scorer raises, the exception propagates out
of `TranscriptionWorker.run`: for every non-empty segment stream, a scorer
that raises makes the run abort — no per-text "no result" treatment, no
processing of the remaining texts, no emitted highlight list. -/
theorem scorer_error_aborts_run (segs : List Segment) (h : segs ≠ []) :
    runE (fun _ => Except.error ()) segs = Except.error () :=
  runLoopE_error_aborts segs.length segs 0 initState (by simp) h

/-- Witness for `scorer_error_aborts_run` on a one-segment stream. -/
theorem scorer_error_aborts_run_witness :
    ([{ text := "hi", start := 0, endTime := 25 }] : List Segment) ≠ [] ∧
    runE (fun _ => Except.error ()) [{ text := "hi", start := 0, endTime := 25 }]
      = Except.error () :=
  ⟨by decide, scorer_error_aborts_run [{ text := "hi", start := 0, endTime := 25 }] (by decide)⟩

/-! ### C8: the empty segment stream -/

/-- C8 counterexample: on the empty stream the progress emission sits inside
the (never executed) segment loop, so no progress value is emitted at all —
in particular not the single `100` the claim requires. -/
theorem empty_stream_counterexample :
    (run (fun ts => ts.map fun _ => { label := "joy", score := 1 }) []).progressLog = [] ∧
    (run (fun ts => ts.map fun _ => { label := "joy", score := 1 }) []).detected_highlights = [] ∧
    ([] : List ℕ) ≠ [100] :=
  ⟨rfl, rfl, by decide⟩

/-- C8 amended: the empty segment stream is valid and not an error: the run
completes normally with an empty highlight list, but emits no progress update
at all (and makes no classifier call). -/
theorem empty_stream_valid (classify : List String → List Pred) :
    (run classify []).detected_highlights = [] ∧
    (run classify []).progressLog = [] ∧
    (run classify []).batchLog = [] :=
  ⟨rfl, rfl, rfl⟩

/-! ### C1: highlights never overlap -/

/-- `stepSeg` preserves the no-overlap invariant. -/
theorem stepSeg_preserves_HInv (st : List Highlight × ℚ) (x : Pred × String × ℚ × ℚ)
    (h : HInv st) : HInv (stepSeg st x) := by
  obtain ⟨hpw, hle⟩ := h
  unfold stepSeg
  dsimp only
  by_cases hacc : accepts x.1
  · rw [if_pos hacc]
    by_cases hgate : st.2 ≤ (clipBounds x.2.2.1 x.2.2.2).1
    · rw [if_pos hgate]
      constructor
      · rw [List.pairwise_append]
        refine ⟨hpw, List.pairwise_singleton _ _, ?_⟩
        intro a ha b hb
        rw [List.mem_singleton] at hb
        subst hb
        exact le_trans (hle a ha)
          (max_le (clipBounds_fst_nonneg x.2.2.1 x.2.2.2) hgate)
      · intro h hh
        rw [List.mem_append, List.mem_singleton] at hh
        rcases hh with hh | rfl
        · refine le_trans (hle h hh) (max_le (le_max_left _ _) ?_)
          exact le_trans hgate (clipBounds_start_le x.2.2.1 x.2.2.2)
        · exact le_max_right _ _
    · rw [if_neg hgate]; exact ⟨hpw, hle⟩
  · rw [if_neg hacc]; exact ⟨hpw, hle⟩

/-- `processBatch` preserves the no-overlap invariant. -/
theorem processBatch_preserves_HInv (classify : List String → List Pred)
    (texts : List String) (starts stops : List ℚ) (st : List Highlight × ℚ)
    (h : HInv st) : HInv (processBatch classify texts starts stops st) :=
  foldl_preserves stepSeg stepSeg_preserves_HInv _ st h

/-- One loop iteration preserves the no-overlap invariant. -/
theorem runStep_preserves_RInv (classify : List String → List Pred) (n : ℕ)
    (st : RunState) (i : ℕ) (seg : Segment) (h : RInv st) :
    RInv (runStep classify n st i seg) := by
  unfold runStep
  dsimp only
  split
  · exact processBatch_preserves_HInv classify _ _ _ _ h
  · exact h

/-- The whole segment loop preserves the no-overlap invariant. -/
theorem runLoop_preserves_RInv (classify : List String → List Pred) (n : ℕ) :
    ∀ (rest : List Segment) (i : ℕ) (st : RunState), RInv st →
      RInv (runLoop classify n i st rest) := by
  intro rest
  induction rest with
  | nil => intro i st h; exact h
  | cons seg rest ih =>
    intro i st h
    exact ih _ _ (runStep_preserves_RInv classify n st i seg h)

/-- C1: for every classifier behaviour and every segment stream, the emitted
highlight list is temporally non-overlapping: for any two highlights `h1`
before `h2` in emission order, `h2.clipStart ≥ h1.clipEnd`.  Enforced by
construction through `last_highlight_end`. -/
theorem highlights_no_overlap (classify : List String → List Pred)
    (segs : List Segment) :
    ((run classify segs).detected_highlights).Pairwise
      (fun h1 h2 => h1.clipEnd ≤ h2.clipStart) :=
  (runLoop_preserves_RInv classify segs.length segs 0 initState
    ⟨List.Pairwise.nil, by intro h hh; exact absurd hh (List.not_mem_nil h)⟩).1

/-! ### C4: progress emission -/

/-- Each loop iteration appends exactly one progress value,
`int((i+1)/n*100)`, i.e. `(i+1)*100/n` in natural-number division. -/
theorem runStep_progress (classify : List String → List Pred) (n : ℕ)
    (st : RunState) (i : ℕ) (seg : Segment) :
    (runStep classify n st i seg).progressLog
      = st.progressLog ++ [(i + 1) * 100 / n] := by
  unfold runStep
  dsimp only
  split <;> rfl

/-- The progress log of the loop tail is the corresponding run of floors:
for segments at indices `i, i+1, ...` the emitted values are
`(i+1)*100/n, (i+2)*100/n, ...`. -/
theorem runLoop_progress (classify : List String → List Pred) (n : ℕ) :
    ∀ (rest : List Segment) (i : ℕ) (st : RunState),
      (runLoop classify n i st rest).progressLog =
        st.progressLog ++
          (List.range' (i + 1) rest.length).map (fun j => j * 100 / n) := by
  intro rest
  induction rest with
  | nil => intro i st; simp [runLoop]
  | cons seg rest ih =>
    intro i st
    calc (runLoop classify n i st (seg :: rest)).progressLog
        = (runLoop classify n (i + 1) (runStep classify n st i seg) rest).progressLog := rfl
      _ = st.progressLog ++ [(i + 1) * 100 / n]
            ++ (List.range' ((i + 1) + 1) rest.length).map (fun j => j * 100 / n) := by
          rw [ih, runStep_progress]
      _ = st.progressLog ++
            (List.range' (i + 1) (seg :: rest).length).map (fun j => j * 100 / n) := by
          simp only [List.length_cons, List.range'_succ, List.map_cons,
            List.append_assoc, List.singleton_append]

/-- C4 amended: a progress update is emitted after every segment (in
particular after every batch flush); the `j`-th emitted value is
`floor(j * 100 / total)` (Python `int()` truncation, not `round`); the
sequence of emitted values is non-decreasing and the last one, emitted on the
last segment, is exactly 100. -/
theorem progress_floor_monotone_to_100 (classify : List String → List Pred)
    (segs : List Segment) :
    (run classify segs).progressLog =
      (List.range' 1 segs.length).map (fun j => j * 100 / segs.length) ∧
    (run classify segs).progressLog.Pairwise (· ≤ ·) ∧
    (segs ≠ [] → (run classify segs).progressLog.getLast? = some 100) := by
  have hchar : (run classify segs).progressLog =
      (List.range' 1 segs.length).map (fun j => j * 100 / segs.length) := by
    have h := runLoop_progress classify segs.length segs 0 initState
    unfold run
    rw [h]
    have hinit : initState.progressLog = [] := rfl
    rw [hinit, List.nil_append]
  refine ⟨hchar, ?_, ?_⟩
  · rw [hchar]
    refine List.Pairwise.map _ ?_ (List.pairwise_lt_range' 1 segs.length)
    intro a b hab
    exact Nat.div_le_div_right (Nat.mul_le_mul_right _ (by omega))
  · intro hne
    obtain ⟨m, hm⟩ : ∃ m, segs.length = m + 1 :=
      Nat.exists_eq_succ_of_ne_zero (by simpa [List.length_eq_zero] using hne)
    rw [hchar, hm, List.range'_1_concat, List.map_append, List.map_cons, List.map_nil,
      List.getLast?_concat]
    have h1m : 1 + m = m + 1 := Nat.add_comm 1 m
    rw [h1m]
    congr 1
    exact Nat.mul_div_cancel_left 100 (Nat.succ_pos m)

/-- Witness for `progress_floor_monotone_to_100` on a one-segment stream. -/
theorem progress_floor_monotone_to_100_witness :
    ([({ text := "a", start := 0, endTime := 30 } : Segment)] ≠ ([] : List Segment)) ∧
    (run (fun ts => ts.map fun _ => { label := "joy", score := 1 })
      [{ text := "a", start := 0, endTime := 30 }]).progressLog.getLast? = some 100 :=
  ⟨by decide, (progress_floor_monotone_to_100 _ _).2.2 (by decide)⟩

/-- C4 counterexample: with 15 segments the first batch flush happens at the
10th segment (index 9); the source then emits `int(10/15*100) = 66`, while
the claimed value `round(10/15*100)` is `67`. -/
theorem progress_truncates_not_rounds :
    (run (fun ts => ts.map fun _ => { label := "neutral", score := 0 })
        (List.replicate 15 { text := "x", start := 0, endTime := 1 })).progressLog[9]?
      = some 66 ∧
    progressSpec 10 15 = 67 ∧
    (66 : ℤ) ≠ 67 := by
  refine ⟨by decide, ?_, by decide⟩
  rw [progressSpec, round_eq, Int.floor_eq_iff]
  constructor <;> norm_num

/-! ### C9: batching -/

/-- Each loop iteration moves the new stripped text into either the buffer or
a freshly flushed batch: the concatenation of all flushed batches followed by
the current buffer grows by exactly that one text. -/
theorem runStep_batch_join (classify : List String → List Pred) (n : ℕ)
    (st : RunState) (i : ℕ) (seg : Segment) :
    (runStep classify n st i seg).batchLog.flatten
        ++ (runStep classify n st i seg).batch_texts =
      st.batchLog.flatten ++ st.batch_texts ++ [pyStrip seg.text] := by
  unfold runStep
  dsimp only
  split
  · simp
  · simp

/-- Over the loop, the flushed batches followed by the final buffer
concatenate to exactly the stripped texts of all processed segments. -/
theorem runLoop_batch_join (classify : List String → List Pred) (n : ℕ) :
    ∀ (rest : List Segment) (i : ℕ) (st : RunState),
      (runLoop classify n i st rest).batchLog.flatten
          ++ (runLoop classify n i st rest).batch_texts =
        st.batchLog.flatten ++ st.batch_texts
          ++ rest.map (fun sg => pyStrip sg.text) := by
  intro rest
  induction rest with
  | nil => intro i st; simp [runLoop]
  | cons seg rest ih =>
    intro i st
    calc (runLoop classify n i st (seg :: rest)).batchLog.flatten
          ++ (runLoop classify n i st (seg :: rest)).batch_texts
        = (runLoop classify n (i + 1) (runStep classify n st i seg) rest).batchLog.flatten
            ++ (runLoop classify n (i + 1) (runStep classify n st i seg) rest).batch_texts := rfl
      _ = st.batchLog.flatten ++ st.batch_texts ++ [pyStrip seg.text]
            ++ rest.map (fun sg => pyStrip sg.text) := by
          rw [ih, runStep_batch_join]
      _ = st.batchLog.flatten ++ st.batch_texts
            ++ (seg :: rest).map (fun sg => pyStrip sg.text) := by
          simp

/-- A non-empty remainder always ends with a flush (the last index satisfies
`i = n - 1`), so the loop finishes with an empty batch buffer. -/
theorem runLoop_clears_batch (classify : List String → List Pred) (n : ℕ) :
    ∀ (rest : List Segment) (i : ℕ) (st : RunState),
      i + rest.length = n → rest ≠ [] →
      (runLoop classify n i st rest).batch_texts = [] := by
  intro rest
  induction rest with
  | nil => intro i st _ h; exact absurd rfl h
  | cons seg rest ih =>
    intro i st hn _
    cases rest with
    | nil =>
      have hi : i = n - 1 := by
        simp only [List.length_cons, List.length_nil] at hn
        omega
      show (runStep classify n st i seg).batch_texts = []
      unfold runStep
      dsimp only
      rw [if_pos (Or.inr hi)]
    | cons s2 r2 =>
      have hn' : (i + 1) + (s2 :: r2).length = n := by
        simp only [List.length_cons] at hn ⊢
        omega
      exact ih (i + 1) _ hn' (by simp)

/-- Through the loop, every flushed batch except possibly the final one holds
exactly 10 texts, and every flushed batch holds between 1 and 10 texts. -/
theorem runLoop_batch_sizes (classify : List String → List Pred) (n : ℕ) :
    ∀ (rest : List Segment) (i : ℕ) (st : RunState),
      i + rest.length = n →
      st.batch_texts.length < 10 →
      (∀ b ∈ st.batchLog, b.length = 10) →
      (∀ b ∈ (runLoop classify n i st rest).batchLog.dropLast, b.length = 10) ∧
      (∀ b ∈ (runLoop classify n i st rest).batchLog, 1 ≤ b.length ∧ b.length ≤ 10) := by
  intro rest
  induction rest with
  | nil =>
    intro i st _ _ hlog
    refine ⟨?_, ?_⟩
    · intro b hb
      exact hlog b (List.dropLast_subset _ hb)
    · intro b hb
      rw [hlog b hb]
      omega
  | cons seg rest ih =>
    intro i st hn hbuf hlog
    cases rest with
    | nil =>
      have hi : i = n - 1 := by
        simp only [List.length_cons, List.length_nil] at hn
        omega
      have hstep : (runStep classify n st i seg).batchLog
          = st.batchLog ++ [st.batch_texts ++ [pyStrip seg.text]] := by
        unfold runStep
        dsimp only
        rw [if_pos (Or.inr hi)]
      have hloop : runLoop classify n i st [seg] = runStep classify n st i seg := rfl
      rw [hloop, hstep]
      constructor
      · intro b hb
        rw [List.dropLast_concat] at hb
        exact hlog b hb
      · intro b hb
        rw [List.mem_append, List.mem_singleton] at hb
        rcases hb with hb | rfl
        · rw [hlog b hb]; omega
        · simp only [List.length_append, List.length_cons, List.length_nil]
          omega
    | cons s2 r2 =>
      have hn' : (i + 1) + (s2 :: r2).length = n := by
        simp only [List.length_cons] at hn ⊢
        omega
      have hne : i ≠ n - 1 := by
        simp only [List.length_cons] at hn
        omega
      by_cases hflush : 10 ≤ (st.batch_texts ++ [pyStrip seg.text]).length
      · have hlen : (st.batch_texts ++ [pyStrip seg.text]).length = 10 := by
          simp only [List.length_append, List.length_cons, List.length_nil] at hflush ⊢
          omega
        have hstep1 : (runStep classify n st i seg).batchLog
            = st.batchLog ++ [st.batch_texts ++ [pyStrip seg.text]] := by
          unfold runStep
          dsimp only
          rw [if_pos (Or.inl hflush)]
        have hstep2 : (runStep classify n st i seg).batch_texts = [] := by
          unfold runStep
          dsimp only
          rw [if_pos (Or.inl hflush)]
        refine ih (i + 1) _ hn' ?_ ?_
        · rw [hstep2]
          simp
        · intro b hb
          rw [hstep1, List.mem_append, List.mem_singleton] at hb
          rcases hb with hb | rfl
          · exact hlog b hb
          · exact hlen
      · have hcond : ¬(10 ≤ (st.batch_texts ++ [pyStrip seg.text]).length ∨ i = n - 1) :=
          not_or.mpr ⟨hflush, hne⟩
        have hstep1 : (runStep classify n st i seg).batchLog = st.batchLog := by
          unfold runStep
          dsimp only
          rw [if_neg hcond]
        have hstep2 : (runStep classify n st i seg).batch_texts
            = st.batch_texts ++ [pyStrip seg.text] := by
          unfold runStep
          dsimp only
          rw [if_neg hcond]
        refine ih (i + 1) _ hn' ?_ ?_
        · rw [hstep2]
          exact Nat.lt_of_not_le hflush
        · rw [hstep1]
          exact hlog

/-- C9: over every run, the flushed batches concatenate to exactly the
stripped texts of all segments in order (each segment is scored exactly once,
none dropped at stream end), every batch except possibly the final partial
one holds exactly `batchSize = 10` texts, every batch is non-empty with at
most 10 texts, and the batch buffer ends cleared. -/
theorem batching_exactly_once (classify : List String → List Pred)
    (segs : List Segment) :
    (run classify segs).batchLog.flatten = segs.map (fun sg => pyStrip sg.text) ∧
    (∀ b ∈ (run classify segs).batchLog.dropLast, b.length = 10) ∧
    (∀ b ∈ (run classify segs).batchLog, 1 ≤ b.length ∧ b.length ≤ 10) ∧
    (segs ≠ [] → (run classify segs).batch_texts = []) := by
  rcases segs with _ | ⟨s, rest⟩
  · refine ⟨rfl, ?_, ?_, fun h => absurd rfl h⟩
    · intro b hb
      exact absurd hb (List.not_mem_nil b)
    · intro b hb
      exact absurd hb (List.not_mem_nil b)
  · have hclear : (run classify (s :: rest)).batch_texts = [] :=
      runLoop_clears_batch classify (s :: rest).length (s :: rest) 0 initState
        (by simp) (by simp)
    have hjoin := runLoop_batch_join classify (s :: rest).length (s :: rest) 0 initState
    have hsz := runLoop_batch_sizes classify (s :: rest).length (s :: rest) 0 initState
      (by simp) (by simp [initState]) (by intro b hb; exact absurd hb (List.not_mem_nil b))
    refine ⟨?_, hsz.1, hsz.2, fun _ => hclear⟩
    have hclear' : (runLoop classify (s :: rest).length 0 initState (s :: rest)).batch_texts
        = [] := hclear
    rw [hclear', List.append_nil] at hjoin
    simpa [initState] using hjoin

/-- Witness for `batching_exactly_once` on a one-segment stream. -/
theorem batching_exactly_once_witness :
    ([({ text := " hi ", start := 0, endTime := 30 } : Segment)] ≠ ([] : List Segment)) ∧
    (run (fun ts => ts.map fun _ => { label := "joy", score := 1 })
      [{ text := " hi ", start := 0, endTime := 30 }]).batch_texts = [] :=
  ⟨by decide, (batching_exactly_once _ _).2.2.2 (by decide)⟩

end Clipper
